import Mathlib

/-!
Verification of the AniList Smart Recommendations scoring pipeline.

This file gives a shallow embedding of the pure logic of
`RecommendationEngine.computeRecommendations` and of the rate-limit branch of
`AuthManager.gqlRequest` (popup.js), and proves the documented properties of
the pipeline against it.

Modelling conventions:
* JavaScript `Map`s are modelled as insertion-ordered association lists, with
  in-place update of the first matching key (exactly the observable behaviour
  of `Map.prototype.set` / mutation of a looked-up value).
* `Array.prototype.sort` with a `b.key - a.key` comparator is a stable
  descending sort; it is modelled by the stable insertion sort `sortDescBy`.
* All score arithmetic in the pipeline produces multiples of 0.1
  (integer base weights plus 0.5/0.3 bonus increments), on which
  `toFixed(1)` is the identity, so scores and bonuses are represented
  exactly as natural numbers of tenths (`score10`, `tagBonus10`).
* GraphQL `null` is `Option.none`; JavaScript `||` on strings (which also
  treats `""` as falsy) is modelled by `jsOrStr` / `jsOrOpt`.
-/

namespace AnilistReco

/-! ## Constants (popup.js lines 39-47) -/

def WEIGHT_FAVOURITE : Nat := 2
def WEIGHT_TOP_RATED : Nat := 1
/-- Constant `TAG_BONUS = 0.5`, represented in tenths. -/
def TAG_BONUS10 : Nat := 5
/-- Constant `GENRE_BONUS = 0.3`, represented in tenths. -/
def GENRE_BONUS10 : Nat := 3
def DIVERSITY_CAP : Nat := 5
def MAX_RETRIES : Nat := 4
def MAX_FAV_SOURCES : Nat := 15
def MAX_TOP_SOURCES : Nat := 10

/-! ## Data model -/

/-- A media tag (`tags { name rank }`). -/
structure TagRec where
  name : String
  rank : Nat
deriving DecidableEq, Repr

/-- The media payload of a recommendation candidate (the fields consumed by the
scoring pipeline; cover/format/season fields are display-only and omitted). -/
structure Title where
  id : Nat
  english : Option String
  romaji : Option String
  genres : List String
  tags : List TagRec
deriving DecidableEq, Repr

/-- A favourites record as built by `fetchAllFavourites` (line 331). -/
structure Fav where
  id : Nat
  title : String
deriving DecidableEq, Repr

/-- A rated-list record as built by `fetchUserList` (lines 346-353).
`status` is the effective status (`entry.status || list.status`); `title` can
be absent because line 350 has no `"#"+id` fallback. -/
structure ListEntry where
  mediaId : Nat
  score : Nat
  status : String
  title : Option String
  genres : List String
  tags : List TagRec
deriving DecidableEq, Repr

/-- A fan-out source (element of `tasks`, lines 424-431). -/
structure Task where
  mediaId : Nat
  weight : Nat
  sourceTitle : Option String
  type : String
deriving DecidableEq, Repr

/-- A provenance record `{sourceTitle, type, weight}` (line 480). -/
structure Reason where
  sourceTitle : Option String
  type : String
  weight : Nat
deriving DecidableEq, Repr

/-- A `scoreMap` accumulator entry (line 486). -/
structure CandidateEntry where
  media : Title
  baseScore : Nat
  reasons : List Reason
deriving DecidableEq, Repr

/-- A common-tag display record `{name, strength}` (line 516). -/
structure CommonTag where
  name : String
  strength : Nat
deriving DecidableEq, Repr

/-- A fully refined candidate as it leaves steps 5-6 of the pipeline. -/
structure ScoredEntry where
  media : Title
  baseScore : Nat
  reasons : List Reason
  isPlanning : Bool
  commonTags : List CommonTag
  tagBonus10 : Nat
  score10 : Nat
deriving DecidableEq, Repr

/-! ## JavaScript string truthiness helpers -/

/-- JavaScript `a || b` where `a : String | null` and the result is a string:
`null` and `""` are falsy. -/
def jsOrStr (a : Option String) (b : String) : String :=
  match a with
  | some s => if s = "" then b else s
  | none => b

/-- JavaScript `a || b` where both operands are `String | null`. -/
def jsOrOpt (a b : Option String) : Option String :=
  match a with
  | some s => if s = "" then b else some s
  | none => b

/-- Display name of a favourites node:
`n.title.english || n.title.romaji || `#${n.id}`` (line 331). -/
def favDisplay (english romaji : Option String) (id : Nat) : String :=
  jsOrStr english (jsOrStr romaji ("#" ++ toString id))

/-- Display name of a rated-list entry:
`entry.media.title.english || entry.media.title.romaji` (line 350) —
note the absence of an id-based fallback. -/
def listDisplay (english romaji : Option String) : Option String :=
  jsOrOpt english romaji

/-! ## Stable descending sort

`arr.sort((a, b) => b.key - a.key)` in JavaScript is a stable sort by
descending `key`.  `sortDescBy` is the stable insertion sort with the same
semantics: an element is inserted after every earlier element of
greater-or-equal key. -/

def insertDescBy (key : α → Nat) (x : α) : List α → List α
  | [] => [x]
  | y :: ys => if key y ≤ key x then x :: y :: ys else y :: insertDescBy key x ys

def sortDescBy (key : α → Nat) : List α → List α
  | [] => []
  | x :: xs => insertDescBy key x (sortDescBy key xs)

theorem perm_insertDescBy (key : α → Nat) (x : α) (l : List α) :
    List.Perm (insertDescBy key x l) (x :: l) := by
  induction l with
  | nil => simp [insertDescBy]
  | cons y ys ih =>
    simp only [insertDescBy]
    split
    · exact List.Perm.refl _
    · exact (ih.cons y).trans (List.Perm.swap x y ys)

theorem perm_sortDescBy (key : α → Nat) (l : List α) :
    List.Perm (sortDescBy key l) l := by
  induction l with
  | nil => exact List.Perm.refl _
  | cons x xs ih =>
    exact (perm_insertDescBy key x (sortDescBy key xs)).trans (ih.cons x)

theorem mem_sortDescBy (key : α → Nat) (l : List α) (a : α) :
    a ∈ sortDescBy key l ↔ a ∈ l :=
  (perm_sortDescBy key l).mem_iff

theorem pairwise_insertDescBy (key : α → Nat) (x : α) (l : List α)
    (h : l.Pairwise (fun a b => key b ≤ key a)) :
    (insertDescBy key x l).Pairwise (fun a b => key b ≤ key a) := by
  induction l with
  | nil => simp [insertDescBy]
  | cons y ys ih =>
    rw [List.pairwise_cons] at h
    simp only [insertDescBy]
    split
    · rename_i hle
      refine List.pairwise_cons.mpr ⟨?_, List.pairwise_cons.mpr h⟩
      intro z hz
      rcases List.mem_cons.mp hz with hz | hz
      · exact hz ▸ hle
      · exact Nat.le_trans (h.1 z hz) hle
    · rename_i hgt
      refine List.pairwise_cons.mpr ⟨?_, ih h.2⟩
      intro z hz
      rcases List.mem_cons.mp ((perm_insertDescBy key x ys).mem_iff.mp hz) with hz | hz
      · exact hz ▸ Nat.le_of_lt (Nat.lt_of_not_le hgt)
      · exact h.1 z hz

theorem pairwise_sortDescBy (key : α → Nat) (l : List α) :
    (sortDescBy key l).Pairwise (fun a b => key b ≤ key a) := by
  induction l with
  | nil => simp [sortDescBy]
  | cons x xs ih => exact pairwise_insertDescBy key x _ ih

theorem filter_insertDescBy (key : α → Nat) (x : α) (l : List α) (k : Nat) :
    (insertDescBy key x l).filter (fun a => key a == k)
      = if key x = k then x :: l.filter (fun a => key a == k)
        else l.filter (fun a => key a == k) := by
  induction l with
  | nil => by_cases h : key x = k <;> simp [insertDescBy, List.filter_cons, h]
  | cons y ys ih =>
    simp only [insertDescBy]
    split
    · rename_i hle
      by_cases h : key x = k
      · simp [List.filter_cons, h]
      · simp [List.filter_cons, h]
    · rename_i hgt
      have hy : ¬ key y = k ∨ ¬ key x = k := by
        by_cases h : key x = k
        · left
          intro hyk
          exact hgt (by omega)
        · right; exact h
      by_cases hxk : key x = k
      · rcases hy with hy | hy
        · simp [List.filter_cons, hxk, hy, ih]
        · exact absurd hxk hy
      · simp only [List.filter_cons, ih, hxk, if_neg hxk]
        split <;> simp

/-- Stability of `sortDescBy`: within one key class the original order is
preserved exactly (this is what "original fetch order breaks ties" means). -/
theorem filter_key_sortDescBy (key : α → Nat) (l : List α) (k : Nat) :
    (sortDescBy key l).filter (fun a => key a == k)
      = l.filter (fun a => key a == k) := by
  induction l with
  | nil => rfl
  | cons x xs ih =>
    simp only [sortDescBy, filter_insertDescBy, List.filter_cons]
    by_cases h : key x = k
    · simp [h, ih]
    · simp [h, ih]

/-! ## User profile (computeRecommendations step 2, lines 391-413) -/

/-- Accumulated per-tag statistics `{totalRank, count}` (line 396). -/
structure TagStat where
  totalRank : Nat
  count : Nat
deriving DecidableEq, Repr

/-- One `userTagMap` update for one tag (lines 394-396): bump the stats of the
first entry with this name, or append a fresh entry. -/
def tagMapAdd (m : List (String × TagStat)) (t : TagRec) : List (String × TagStat) :=
  match m with
  | [] => [(t.name, ⟨t.rank, 1⟩)]
  | (n, st) :: rest =>
    if n = t.name then (n, ⟨st.totalRank + t.rank, st.count + 1⟩) :: rest
    else (n, st) :: tagMapAdd rest t

/-- The `userTagMap` profile (lines 391-398): walk every entry's tags in list order. -/
def buildTagMap (ul : List ListEntry) : List (String × TagStat) :=
  ul.foldl (fun m e => e.tags.foldl tagMapAdd m) []

def lookupTag (m : List (String × TagStat)) (n : String) : Option TagStat :=
  (m.find? (fun p => p.1 == n)).map (·.2)

/-- One `userGenreMap` update (line 404). -/
def genreMapAdd (m : List (String × Nat)) (g : String) : List (String × Nat) :=
  match m with
  | [] => [(g, 1)]
  | (n, c) :: rest =>
    if n = g then (n, c + 1) :: rest else (n, c) :: genreMapAdd rest g

/-- The `userGenreMap` profile (lines 401-406). -/
def buildGenreMap (ul : List ListEntry) : List (String × Nat) :=
  ul.foldl (fun m e => e.genres.foldl genreMapAdd m) []

/-- The `topGenres` set (lines 408-413): genre frequencies sorted descending (stable,
so first-encountered order breaks ties), sliced to 10, keeping the names. -/
def topGenresOf (ul : List ListEntry) : List String :=
  ((sortDescBy (fun p => p.2) (buildGenreMap ul)).take 10).map (·.1)

/-- JavaScript `Math.round(num/den)` for non-negative operands. -/
def jsRound (num den : Nat) : Nat := (2 * num + den) / (2 * den)

/-! ## Seed selection (computeRecommendations steps 2-3, lines 384-431) -/

def favIds (favs : List Fav) : List Nat := favs.map (·.id)

/-- The `topRated` pool (line 386): non-planning, positively scored entries of the
already score-sorted list, sliced to `MAX_TOP_SOURCES + MAX_FAV_SOURCES`
BEFORE favourites are removed. -/
def topRatedPool (ul : List ListEntry) : List ListEntry :=
  (ul.filter (fun e => !(e.status == "PLANNING") && decide (0 < e.score))).take
    (MAX_TOP_SOURCES + MAX_FAV_SOURCES)

/-- The `topOnly` list (line 388): the pool minus favourites, sliced to `MAX_TOP_SOURCES`. -/
def topOnlyOf (favs : List Fav) (ul : List ListEntry) : List ListEntry :=
  ((topRatedPool ul).filter (fun e => !(favIds favs).contains e.mediaId)).take
    MAX_TOP_SOURCES

/-- A favourite fan-out source (line 427). -/
def favTask (f : Fav) : Task :=
  ⟨f.id, WEIGHT_FAVOURITE, some f.title, "favori"⟩

/-- A top-rated fan-out source (line 430). -/
def topTask (e : ListEntry) : Task :=
  ⟨e.mediaId, WEIGHT_TOP_RATED, e.title, "top noté"⟩

/-- The `tasks` list (lines 424-431): capped favourites first, then `topOnly`. -/
def mkTasks (favs : List Fav) (ul : List ListEntry) : List Task :=
  (favs.take MAX_FAV_SOURCES).map favTask ++ (topOnlyOf favs ul).map topTask

/-! ## Fan-out aggregation (computeRecommendations step 4, lines 436-497) -/

def mkReason (t : Task) : Reason := ⟨t.sourceTitle, t.type, t.weight⟩

/-- One recommendation hit (lines 480-488): locate the entry for this media id
and add the task's weight and reason, or append a fresh entry (JavaScript
`Map` insertion order). The stored `media` payload is first-seen-wins. -/
def addHit (m : List CandidateEntry) (t : Task) (media : Title) : List CandidateEntry :=
  match m with
  | [] => [⟨media, t.weight, [mkReason t]⟩]
  | e :: rest =>
    if e.media.id = media.id then
      { e with baseScore := e.baseScore + t.weight,
               reasons := e.reasons ++ [mkReason t] } :: rest
    else
      e :: addHit rest t media

/-- Process one task's recommendation nodes (lines 477-489); a node whose
`mediaRecommendation` is null is skipped (line 479). -/
def processTask (recsFn : Nat → List (Option Title)) (m : List CandidateEntry)
    (t : Task) : List CandidateEntry :=
  (recsFn t.mediaId).foldl
    (fun m node => match node with
      | none => m
      | some media => addHit m t media) m

/-- Process one successful compound chunk (lines 473-489). -/
def processChunk (recsFn : Nat → List (Option Title)) (m : List CandidateEntry)
    (chunk : List Task) : List CandidateEntry :=
  chunk.foldl (processTask recsFn) m

/-- Structural worker for `chunksOf`; the fuel is an upper bound on the list
length, so with `0 < n` it never runs out before the list does. -/
def chunksOfFuel (n : Nat) : Nat → List α → List (List α)
  | _, [] => []
  | 0, _ :: _ => []
  | fuel + 1, x :: xs => ((x :: xs).take n) :: chunksOfFuel n fuel ((x :: xs).drop n)

/-- The `tasks.slice(c, c + CHUNK)` batching with `CHUNK = 12` (lines 441-443). -/
def chunksOf (n : Nat) (xs : List α) : List (List α) :=
  chunksOfFuel n xs.length xs

/-- The whole fan-out loop (lines 441-497): each chunk's compound request
either fails (`catch`, line 490: the chunk contributes nothing) or merges
every task's hits into the score map. -/
def aggregate (recsFn : Nat → List (Option Title)) (fails : Nat → Bool)
    (tasks : List Task) : List CandidateEntry :=
  ((chunksOf 12 tasks).enum).foldl
    (fun m p => if fails p.1 then m else processChunk recsFn m p.2) []

/-! ## Seen filtering (computeRecommendations step 5, lines 499-506) -/

/-- The `seenIds` set (line 385): ids rated with any non-planning status. -/
def seenIds (ul : List ListEntry) : List Nat :=
  (ul.filter (fun e => !(e.status == "PLANNING"))).map (·.mediaId)

/-- The `planningIds` set (line 384): ids rated with the planning status. -/
def planningIds (ul : List ListEntry) : List Nat :=
  (ul.filter (fun e => e.status == "PLANNING")).map (·.mediaId)

/-- A candidate that survived the seen-filter, with its `isPlanning` flag. -/
structure FilteredEntry where
  media : Title
  baseScore : Nat
  reasons : List Reason
  isPlanning : Bool
deriving DecidableEq, Repr

/-- Lines 501-506: drop seen candidates, flag planning ones. -/
def filterSeen (ul : List ListEntry) (m : List CandidateEntry) : List FilteredEntry :=
  (m.filter (fun e => !(seenIds ul).contains e.media.id)).map
    (fun e => ⟨e.media, e.baseScore, e.reasons, (planningIds ul).contains e.media.id⟩)

/-! ## Tag/genre refinement (computeRecommendations step 6, lines 510-531) -/

/-- The `common` list before sorting (lines 512-518): candidate tags found in
the user profile, each with `strength = Math.round(totalRank/count)`. -/
def commonTagsAll (tagMap : List (String × TagStat)) (media : Title) : List CommonTag :=
  media.tags.filterMap (fun t =>
    match lookupTag tagMap t.name with
    | some u => some ⟨t.name, jsRound u.totalRank u.count⟩
    | none => none)

/-- Lines 510-531: sort common tags by descending strength, keep 5 for
display, add `min(·,3)` tag and genre bonuses (in tenths; every value is a
multiple of 0.1 so `toFixed(1)` is the identity). -/
def refineEntry (tagMap : List (String × TagStat)) (tg : List String)
    (f : FilteredEntry) : ScoredEntry :=
  let common := sortDescBy (fun c => c.strength) (commonTagsAll tagMap f.media)
  let matched := f.media.genres.filter (fun g => tg.contains g)
  let tagB := min common.length 3 * TAG_BONUS10
  let genreB := min matched.length 3 * GENRE_BONUS10
  { media := f.media
    baseScore := f.baseScore
    reasons := f.reasons
    isPlanning := f.isPlanning
    commonTags := common.take 5
    tagBonus10 := tagB + genreB
    score10 := 10 * f.baseScore + tagB + genreB }

/-! ## Diversity re-rank (computeRecommendations step 7, lines 535-556) -/

/-- The bucket `(entry.media.genres || [])[0] || "Unknown"` (line 544); note that an
empty-string first genre is falsy in JavaScript and also buckets to
`"Unknown"`. -/
def codeBucket (e : ScoredEntry) : String :=
  match e.media.genres with
  | [] => "Unknown"
  | g :: _ => if g = "" then "Unknown" else g

def gcGet (gc : List (String × Nat)) (g : String) : Nat :=
  ((gc.find? (fun p => p.1 == g)).map (·.2)).getD 0

def gcSet (gc : List (String × Nat)) (g : String) (v : Nat) : List (String × Nat) :=
  match gc with
  | [] => [(g, v)]
  | (a, b) :: rest => if a = g then (a, v) :: rest else (a, b) :: gcSet rest g v

/-- The single greedy pass (lines 543-554), returning the `diversified` and
`deferred` lists. -/
def diversifyAux (cap : Nat) :
    List ScoredEntry → List (String × Nat) → List ScoredEntry × List ScoredEntry
  | [], _ => ([], [])
  | e :: rest, gc =>
    let pg := codeBucket e
    let c := gcGet gc pg
    if c < cap then
      let p := diversifyAux cap rest (gcSet gc pg (c + 1))
      (e :: p.1, p.2)
    else
      let p := diversifyAux cap rest gc
      (p.1, e :: p.2)

/-- The concatenation `finalResults = [...diversified, ...deferred]` (line 556). -/
def diversify (cap : Nat) (xs : List ScoredEntry) : List ScoredEntry :=
  (diversifyAux cap xs []).1 ++ (diversifyAux cap xs []).2

/-! ## The pipeline (computeRecommendations, lines 373-587) -/

/-- Everything the pipeline observes from the network: the two structural
fetches (either of which may fail), the per-seed recommendation lists, and
which compound chunks fail. -/
structure RemoteData where
  favResponse : Except String (List Fav)
  listResponse : Except String (List ListEntry)
  recsFn : Nat → List (Option Title)
  chunkFails : Nat → Bool

/-- The sort at the end of `fetchUserList` (line 356): stable descending by
score. -/
def sortUserList (ul : List ListEntry) : List ListEntry :=
  sortDescBy (fun e => e.score) ul

/-- The pure pipeline on already-fetched data (steps 2-7). -/
def pipeline (favs : List Fav) (ulRaw : List ListEntry)
    (recsFn : Nat → List (Option Title)) (fails : Nat → Bool) : List ScoredEntry :=
  let ul := sortUserList ulRaw
  let tasks := mkTasks favs ul
  let scoreMap := aggregate recsFn fails tasks
  let filtered := filterSeen ul scoreMap
  let refined := filtered.map (refineEntry (buildTagMap ul) (topGenresOf ul))
  let sorted := sortDescBy (fun e => e.score10) refined
  diversify DIVERSITY_CAP sorted

/-- The whole of `computeRecommendations` (lines 373-587): the `Promise.all` of the two
structural fetches aborts the run if either fails (step 1); otherwise the
pure pipeline runs to completion. -/
def computeRecommendations (d : RemoteData) : Except String (List ScoredEntry) :=
  match d.favResponse, d.listResponse with
  | .error e, _ => .error e
  | .ok _, .error e => .error e
  | .ok favs, .ok ul => .ok (pipeline favs ul d.recsFn d.chunkFails)

/-! ## Rate-limit retry (AuthManager.gqlRequest, lines 255-265)

Only the HTTP 429 branch is modelled; any non-429 response is abstracted as
the request proceeding to response handling. `retryAfter` is the parsed
`Retry-After` header, `0` when absent. -/

structure HttpResp where
  status : Nat
  retryAfter : Nat
deriving DecidableEq, Repr

/-- The backoff delay in milliseconds for one 429 (line 261):
`retryAfter > 0 ? retryAfter * 1000 : (2 ** attempt) * 1500`. -/
def backoffDelay (attempt retryAfter : Nat) : Nat :=
  if 0 < retryAfter then retryAfter * 1000 else 2 ^ attempt * 1500

/-- The retry loop of `gqlRequest` (lines 258-265), de-recursed on the number
of retries still allowed (`fuel = MAX_RETRIES - attempt`, so fuel `0` and the
`MAX_RETRIES ≤ attempt` guard coincide): on 429, fail once the ceiling is
reached, otherwise sleep the backoff delay and retry with `attempt + 1`.
Returns the list of delays slept and either the index of the attempt that got
through or the rate-limit error. -/
def gqlRequestAux (resp : Nat → HttpResp) : Nat → Nat → List Nat × Except String Nat
  | 0, attempt =>
    if (resp attempt).status = 429 then ([], .error "AniList API: Too Many Requests.")
    else ([], .ok attempt)
  | fuel + 1, attempt =>
    if (resp attempt).status = 429 then
      if MAX_RETRIES ≤ attempt then ([], .error "AniList API: Too Many Requests.")
      else
        let d := backoffDelay attempt (resp attempt).retryAfter
        let p := gqlRequestAux resp fuel (attempt + 1)
        (d :: p.1, p.2)
    else ([], .ok attempt)

def gqlRequestModel (resp : Nat → HttpResp) (attempt : Nat) :
    List Nat × Except String Nat :=
  gqlRequestAux resp (MAX_RETRIES - attempt) attempt

/-! ## The event view of the fan-out

A run of the fan-out loop with no failed chunk is a left fold of `addHit`
over the flat list of (seed, recommended title) pairs, in processing order. -/

/-- The (seed, hit) pairs one task contributes, in order. -/
def taskEvents (recsFn : Nat → List (Option Title)) (t : Task) : List (Task × Title) :=
  ((recsFn t.mediaId).filterMap id).map (fun m => (t, m))

/-- All (seed, hit) pairs of a task list, in processing order. -/
def events (recsFn : Nat → List (Option Title)) (tasks : List Task) :
    List (Task × Title) :=
  tasks.flatMap (taskEvents recsFn)

def hitStep (m : List CandidateEntry) (ev : Task × Title) : List CandidateEntry :=
  addHit m ev.1 ev.2

/-- Total weight contributed to candidate `i` by a list of events. -/
def weightSum (i : Nat) (evs : List (Task × Title)) : Nat :=
  ((evs.filter (fun ev => ev.2.id == i)).map (fun ev => ev.1.weight)).sum

def entryAt (m : List CandidateEntry) (i : Nat) : Option CandidateEntry :=
  m.find? (fun e => e.media.id == i)

/-- The base score recorded for candidate `i` (0 when absent). -/
def baseOf (m : List CandidateEntry) (i : Nat) : Nat :=
  ((entryAt m i).map (·.baseScore)).getD 0

def reasonsOf (m : List CandidateEntry) (i : Nat) : List Reason :=
  ((entryAt m i).map (·.reasons)).getD []

theorem entryAt_addHit (m : List CandidateEntry) (t : Task) (x : Title) (i : Nat) :
    entryAt (addHit m t x) i =
      if x.id = i then
        match entryAt m i with
        | some e => some { e with baseScore := e.baseScore + t.weight,
                                  reasons := e.reasons ++ [mkReason t] }
        | none => some ⟨x, t.weight, [mkReason t]⟩
      else entryAt m i := by
  induction m with
  | nil =>
    by_cases h : x.id = i
    · simp [addHit, entryAt, List.find?, h]
    · have hb : (x.id == i) = false := by simp [h]
      simp [addHit, entryAt, List.find?, h, hb]
  | cons e rest ih =>
    by_cases he : e.media.id = x.id
    · by_cases h : x.id = i
      · have hb : (e.media.id == i) = true := by simp [he, h]
        simp [addHit, entryAt, List.find?_cons, he, h, hb]
      · have hb : (e.media.id == i) = false := by simp [he, h]
        simp [addHit, entryAt, List.find?_cons, he, h, hb]
    · simp only [addHit, if_neg he]
      by_cases hei : e.media.id = i
      · have hxi : ¬ x.id = i := fun hh => he (hei.trans hh.symm)
        have hb : (e.media.id == i) = true := by simp [hei]
        simp [entryAt, List.find?_cons, hb, hxi]
      · have hb : (e.media.id == i) = false := by simp [hei]
        by_cases h : x.id = i <;>
          simpa [entryAt, List.find?_cons, hb, h] using ih

theorem baseOf_addHit (m : List CandidateEntry) (t : Task) (x : Title) (i : Nat) :
    baseOf (addHit m t x) i = baseOf m i + (if x.id = i then t.weight else 0) := by
  by_cases h : x.id = i
  · simp only [baseOf, entryAt_addHit, if_pos h]
    cases hm : entryAt m i <;> simp [hm]
  · simp [baseOf, entryAt_addHit, if_neg h]

theorem reasonsOf_addHit (m : List CandidateEntry) (t : Task) (x : Title) (i : Nat) :
    reasonsOf (addHit m t x) i
      = reasonsOf m i ++ (if x.id = i then [mkReason t] else []) := by
  by_cases h : x.id = i
  · simp only [reasonsOf, entryAt_addHit, if_pos h]
    cases hm : entryAt m i <;> simp [hm]
  · simp [reasonsOf, entryAt_addHit, if_neg h]

theorem weightSum_cons (i : Nat) (ev : Task × Title) (evs : List (Task × Title)) :
    weightSum i (ev :: evs)
      = (if ev.2.id = i then ev.1.weight else 0) + weightSum i evs := by
  by_cases h : ev.2.id = i <;> simp [weightSum, List.filter_cons, h]

theorem weightSum_append (i : Nat) (l1 l2 : List (Task × Title)) :
    weightSum i (l1 ++ l2) = weightSum i l1 + weightSum i l2 := by
  simp [weightSum, List.filter_append]

theorem baseOf_foldl (evs : List (Task × Title)) (m : List CandidateEntry) (i : Nat) :
    baseOf (evs.foldl hitStep m) i = baseOf m i + weightSum i evs := by
  induction evs generalizing m with
  | nil => simp [weightSum]
  | cons ev evs ih =>
    simp only [List.foldl_cons, ih, weightSum_cons, hitStep, baseOf_addHit]
    omega

theorem reasonsOf_foldl (evs : List (Task × Title)) (m : List CandidateEntry) (i : Nat) :
    reasonsOf (evs.foldl hitStep m) i
      = reasonsOf m i
          ++ (evs.filter (fun ev => ev.2.id == i)).map (fun ev => mkReason ev.1) := by
  induction evs generalizing m with
  | nil => simp
  | cons ev evs ih =>
    by_cases h : ev.2.id = i
    · simp [List.foldl_cons, ih, hitStep, reasonsOf_addHit, List.filter_cons, h]
    · simp [List.foldl_cons, ih, hitStep, reasonsOf_addHit, List.filter_cons, h]

/-! ### Reduction of `aggregate` to the event fold -/

theorem foldl_skip_filter (recsFn : Nat → List (Option Title)) (fails : Nat → Bool)
    (l : List (Nat × List Task)) (m : List CandidateEntry) :
    l.foldl (fun m p => if fails p.1 then m else processChunk recsFn m p.2) m
      = ((l.filter (fun p => !(fails p.1))).map Prod.snd).foldl
          (processChunk recsFn) m := by
  induction l generalizing m with
  | nil => rfl
  | cons p l ih =>
    by_cases h : fails p.1
    · simp [List.filter_cons, h, ih]
    · simp [List.filter_cons, h, ih]

/-- A failed compound chunk contributes nothing: the fan-out result equals a
plain fold over the successful chunks alone. -/
theorem aggregate_eq_successful_chunks (recsFn : Nat → List (Option Title))
    (fails : Nat → Bool) (tasks : List Task) :
    aggregate recsFn fails tasks
      = (((chunksOf 12 tasks).enum.filter (fun p => !(fails p.1))).map
          Prod.snd).foldl (processChunk recsFn) [] :=
  foldl_skip_filter recsFn fails _ _

theorem flatten_chunksOfFuel (n : Nat) (hn : 0 < n) (fuel : Nat) :
    ∀ (xs : List α), xs.length ≤ fuel → (chunksOfFuel n fuel xs).flatten = xs := by
  induction fuel with
  | zero =>
    intro xs h
    have hx : xs = [] := List.length_eq_zero.mp (Nat.le_zero.mp h)
    subst hx
    rfl
  | succ f ih =>
    intro xs h
    cases xs with
    | nil => rfl
    | cons x xs =>
      have hlen : ((x :: xs).drop n).length ≤ f := by
        simp only [List.length_drop, List.length_cons]
        simp only [List.length_cons] at h
        omega
      simp only [chunksOfFuel, List.flatten_cons, ih _ hlen,
        List.take_append_drop]

theorem flatten_chunksOf (n : Nat) (hn : 0 < n) (xs : List α) :
    (chunksOf n xs).flatten = xs :=
  flatten_chunksOfFuel n hn xs.length xs (Nat.le_refl _)

theorem foldl_filterMap_id {β γ : Type _} (l : List (Option β)) (f : γ → β → γ) (m : γ) :
    (l.filterMap id).foldl f m
      = l.foldl (fun m o => match o with | none => m | some x => f m x) m := by
  induction l generalizing m with
  | nil => rfl
  | cons o l ih => cases o <;> simp [List.filterMap_cons, ih]

theorem processTask_eq_events (recsFn : Nat → List (Option Title))
    (m : List CandidateEntry) (t : Task) :
    processTask recsFn m t = (taskEvents recsFn t).foldl hitStep m := by
  rw [taskEvents, List.foldl_map, foldl_filterMap_id]
  show List.foldl _ m _ = List.foldl _ m _
  congr 1
  funext acc o
  cases o <;> rfl

theorem foldl_tasks_events (recsFn : Nat → List (Option Title))
    (tasks : List Task) (m : List CandidateEntry) :
    tasks.foldl (processTask recsFn) m = (events recsFn tasks).foldl hitStep m := by
  induction tasks generalizing m with
  | nil => rfl
  | cons t ts ih =>
    simp [events, List.flatMap_cons, List.foldl_append, ih,
      processTask_eq_events, events]

/-- With no failed chunk, the fan-out is exactly the event fold. -/
theorem aggregate_noFail (recsFn : Nat → List (Option Title)) (fails : Nat → Bool)
    (tasks : List Task) (hf : ∀ i, fails i = false) :
    aggregate recsFn fails tasks = (events recsFn tasks).foldl hitStep [] := by
  rw [aggregate_eq_successful_chunks]
  have hfilter : (chunksOf 12 tasks).enum.filter (fun p => !(fails p.1))
      = (chunksOf 12 tasks).enum :=
    List.filter_eq_self.mpr (fun p _ => by simp [hf p.1])
  rw [hfilter, List.enum_map_snd]
  calc (chunksOf 12 tasks).foldl (processChunk recsFn) []
      = ((chunksOf 12 tasks).flatten).foldl (processTask recsFn) [] :=
        (List.foldl_flatten _ _ _).symm
    _ = tasks.foldl (processTask recsFn) [] := by
        rw [flatten_chunksOf 12 (by omega) tasks]
    _ = (events recsFn tasks).foldl hitStep [] := foldl_tasks_events _ _ _

/-! ### Distinctness of score-map keys -/

def idsOf (m : List CandidateEntry) : List Nat := m.map (fun e => e.media.id)

def hasId (m : List CandidateEntry) (i : Nat) : Bool := m.any (fun e => e.media.id == i)

theorem hasId_iff_mem (m : List CandidateEntry) (i : Nat) :
    hasId m i = true ↔ i ∈ idsOf m := by
  simp only [hasId, idsOf, List.any_eq_true, List.mem_map, beq_iff_eq]

theorem idsOf_addHit (m : List CandidateEntry) (t : Task) (x : Title) :
    idsOf (addHit m t x) = if hasId m x.id then idsOf m else idsOf m ++ [x.id] := by
  induction m with
  | nil => simp [addHit, idsOf, hasId]
  | cons e rest ih =>
    by_cases he : e.media.id = x.id
    · simp [addHit, idsOf, hasId, he]
    · have hb : (e.media.id == x.id) = false := by simp [he]
      have hh : hasId (e :: rest) x.id = hasId rest x.id := by simp [hasId, hb]
      simp only [addHit, if_neg he, idsOf, List.map_cons, hh]
      simp only [idsOf] at ih
      by_cases hr : hasId rest x.id
      · rw [ih]
        simp [hr]
      · rw [ih]
        simp [hr]

theorem nodup_idsOf_addHit (m : List CandidateEntry) (t : Task) (x : Title)
    (h : (idsOf m).Nodup) : (idsOf (addHit m t x)).Nodup := by
  rw [idsOf_addHit]
  split
  · exact h
  · rename_i hh
    have hnot : x.id ∉ idsOf m := fun hmem => hh ((hasId_iff_mem m x.id).mpr hmem)
    simp [List.nodup_append, h, List.disjoint_singleton, hnot]

theorem nodup_idsOf_foldl (evs : List (Task × Title)) (m : List CandidateEntry)
    (h : (idsOf m).Nodup) : (idsOf (evs.foldl hitStep m)).Nodup := by
  induction evs generalizing m with
  | nil => exact h
  | cons ev evs ih => exact ih _ (nodup_idsOf_addHit _ _ _ h)

theorem entryAt_eq_of_mem (m : List CandidateEntry) (e : CandidateEntry)
    (he : e ∈ m) (h : (idsOf m).Nodup) : entryAt m e.media.id = some e := by
  induction m with
  | nil => cases he
  | cons f rest ih =>
    have hcons : (idsOf (f :: rest)) = f.media.id :: idsOf rest := rfl
    rw [hcons, List.nodup_cons] at h
    rcases List.mem_cons.mp he with rfl | hmem
    · simp [entryAt, List.find?_cons]
    · have hmm : e.media.id ∈ idsOf rest := List.mem_map_of_mem _ hmem
      have hne : (f.media.id == e.media.id) = false := by
        simp only [beq_eq_false_iff_ne, ne_eq]
        intro hEq
        exact h.1 (hEq ▸ hmm)
      simp only [entryAt, List.find?_cons, hne]
      exact ih hmem h.2

/-! ### Diversity pass lemmas -/

theorem gcGet_gcSet (gc : List (String × Nat)) (k g : String) (v : Nat) :
    gcGet (gcSet gc k v) g = if k = g then v else gcGet gc g := by
  induction gc with
  | nil =>
    by_cases h : k = g
    · simp [gcSet, gcGet, List.find?, h]
    · have hb : (k == g) = false := by simp [h]
      simp [gcSet, gcGet, List.find?, h, hb]
  | cons p rest ih =>
    obtain ⟨a, b⟩ := p
    by_cases hak : a = k
    · subst hak
      by_cases hag : a = g
      · simp [gcSet, gcGet, List.find?_cons, hag]
      · have hb : (a == g) = false := by simp [hag]
        simp [gcSet, gcGet, List.find?_cons, hag, hb]
    · by_cases hag : a = g
      · have hkg : ¬ k = g := fun hh => hak (hag.trans hh.symm)
        have hgk : ¬ g = k := fun hh => hkg hh.symm
        simp [gcSet, gcGet, List.find?_cons, hak, hag, hkg, hgk]
      · have hb : (a == g) = false := by simp [hag]
        simp only [gcSet, if_neg hak]
        simpa [gcGet, List.find?_cons, hb] using ih

theorem diversifyAux_perm (cap : Nat) (xs : List ScoredEntry)
    (gc : List (String × Nat)) :
    List.Perm ((diversifyAux cap xs gc).1 ++ (diversifyAux cap xs gc).2) xs := by
  induction xs generalizing gc with
  | nil => simp [diversifyAux]
  | cons e rest ih =>
    rw [diversifyAux]
    split
    · simpa using (ih _).cons e
    · simpa using List.perm_middle.trans ((ih gc).cons e)

theorem diversifyAux_defer_sublist (cap : Nat) (xs : List ScoredEntry)
    (gc : List (String × Nat)) : (diversifyAux cap xs gc).2.Sublist xs := by
  induction xs generalizing gc with
  | nil => simp [diversifyAux]
  | cons e rest ih =>
    rw [diversifyAux]
    split
    · exact (ih _).cons e
    · exact (ih gc).cons₂ e

theorem diversifyAux_countP (cap : Nat) (xs : List ScoredEntry) (g : String)
    (gc : List (String × Nat)) (hg : gcGet gc g ≤ cap) :
    ((diversifyAux cap xs gc).1.countP (fun e => codeBucket e == g)) + gcGet gc g
      ≤ cap := by
  induction xs generalizing gc with
  | nil => simpa [diversifyAux] using hg
  | cons e rest ih =>
    rw [diversifyAux]
    split
    · rename_i hlt
      by_cases hpg : codeBucket e = g
      · rw [hpg] at hlt ⊢
        have h1 : gcGet (gcSet gc g (gcGet gc g + 1)) g = gcGet gc g + 1 := by
          rw [gcGet_gcSet]
          simp
        have h2 := ih (gcSet gc g (gcGet gc g + 1)) (by rw [h1]; omega)
        rw [h1] at h2
        simp only [List.countP_cons, hpg]
        simp only [beq_self_eq_true, if_true]
        omega
      · have h1 : gcGet (gcSet gc (codeBucket e) (gcGet gc (codeBucket e) + 1)) g
            = gcGet gc g := by rw [gcGet_gcSet, if_neg hpg]
        have h2 := ih (gcSet gc (codeBucket e) (gcGet gc (codeBucket e) + 1))
          (by rw [h1]; exact hg)
        rw [h1] at h2
        have hb : (codeBucket e == g) = false := by simp [hpg]
        simpa [List.countP_cons, hb] using h2
    · rename_i hge
      simpa using ih gc hg

/-- The primary-genre bucket as the specification words it: the first genre,
or `"Unknown"` for an empty genre list. -/
def claimPrimary (e : ScoredEntry) : String := (e.media.genres.head?).getD "Unknown"

theorem claimPrimary_to_codeBucket (e : ScoredEntry) (g : String)
    (h : claimPrimary e = g) :
    codeBucket e = (if g = "" then "Unknown" else g) := by
  cases hg : e.media.genres with
  | nil =>
    simp [claimPrimary, hg] at h
    simp [codeBucket, hg, ← h]
  | cons a tl =>
    simp [claimPrimary, hg] at h
    subst h
    simp [codeBucket, hg]

/-- At most `cap` entries of each spec-level primary genre sit in the
diversified (undeferred) prefix. -/
theorem diversify_div_cap (cap : Nat) (xs : List ScoredEntry) (g : String) :
    ((diversifyAux cap xs []).1.countP (fun e => claimPrimary e == g)) ≤ cap := by
  have h1 : ((diversifyAux cap xs []).1.countP (fun e => claimPrimary e == g))
      ≤ ((diversifyAux cap xs []).1.countP
          (fun e => codeBucket e == (if g = "" then "Unknown" else g))) := by
    refine List.countP_mono_left (fun e _ hp => ?_)
    rw [beq_iff_eq] at hp ⊢
    exact claimPrimary_to_codeBucket e g hp
  have h2 := diversifyAux_countP cap xs (if g = "" then "Unknown" else g) []
    (by simp [gcGet, List.find?])
  simp only [gcGet, List.find?, Option.getD_none, Option.map_none'] at h2
  omega

/-! ## Pipeline membership helpers -/

theorem contains_iff_mem (l : List Nat) (i : Nat) : l.contains i = true ↔ i ∈ l := by
  simp [List.contains, List.elem_iff]

theorem diversify_perm (cap : Nat) (xs : List ScoredEntry) :
    List.Perm (diversify cap xs) xs :=
  diversifyAux_perm cap xs []

theorem mem_pipeline_iff (favs : List Fav) (ulRaw : List ListEntry)
    (recsFn : Nat → List (Option Title)) (fails : Nat → Bool) (e : ScoredEntry) :
    e ∈ pipeline favs ulRaw recsFn fails ↔
      e ∈ (filterSeen (sortUserList ulRaw)
            (aggregate recsFn fails (mkTasks favs (sortUserList ulRaw)))).map
          (refineEntry (buildTagMap (sortUserList ulRaw))
            (topGenresOf (sortUserList ulRaw))) := by
  simp only [pipeline]
  exact ((diversify_perm _ _).trans (perm_sortDescBy _ _)).mem_iff

theorem mem_filterSeen (ul : List ListEntry) (m : List CandidateEntry)
    (f : FilteredEntry) :
    f ∈ filterSeen ul m ↔
      ∃ c ∈ m, ((seenIds ul).contains c.media.id) = false
        ∧ f = ⟨c.media, c.baseScore, c.reasons, (planningIds ul).contains c.media.id⟩ := by
  simp only [filterSeen, List.mem_map, List.mem_filter, Bool.not_eq_true']
  constructor
  · rintro ⟨c, ⟨hc, hseen⟩, rfl⟩
    exact ⟨c, hc, hseen, rfl⟩
  · rintro ⟨c, hc, hseen, rfl⟩
    exact ⟨c, ⟨hc, hseen⟩, rfl⟩

theorem mem_seenIds (ul : List ListEntry) (i : Nat) :
    i ∈ seenIds ul ↔ ∃ le ∈ ul, le.mediaId = i ∧ le.status ≠ "PLANNING" := by
  simp only [seenIds, List.mem_map, List.mem_filter, Bool.not_eq_true',
    beq_eq_false_iff_ne, ne_eq]
  constructor
  · rintro ⟨le, ⟨hle, hst⟩, rfl⟩
    exact ⟨le, hle, rfl, hst⟩
  · rintro ⟨le, hle, rfl, hst⟩
    exact ⟨le, ⟨hle, hst⟩, rfl⟩

theorem mem_planningIds (ul : List ListEntry) (i : Nat) :
    i ∈ planningIds ul ↔ ∃ le ∈ ul, le.mediaId = i ∧ le.status = "PLANNING" := by
  simp only [planningIds, List.mem_map, List.mem_filter, beq_iff_eq]
  constructor
  · rintro ⟨le, ⟨hle, hst⟩, rfl⟩
    exact ⟨le, hle, rfl, hst⟩
  · rintro ⟨le, hle, rfl, hst⟩
    exact ⟨le, ⟨hle, hst⟩, rfl⟩

theorem weightSum_events (recsFn : Nat → List (Option Title)) (i : Nat)
    (ts : List Task) :
    weightSum i (events recsFn ts)
      = (ts.map (fun t => weightSum i (taskEvents recsFn t))).sum := by
  induction ts with
  | nil => simp [events, weightSum]
  | cons t ts ih =>
    simp only [events] at ih
    simp [events, List.flatMap_cons, weightSum_append, ih]

/-! ## Claim C1 -/

/-- C1: in every failure-free run of the fan-out aggregation, each candidate's
`baseScore` is the total weight of the (seed, hit) events naming it, its
`reasons` list holds exactly the reason records of those events in processing
order (hence one record per contributing seed hit), and the `baseScore`
numbers are unchanged under any permutation of the seed list (hence of the
batches). -/
theorem fanout_baseScore_sum
    (recsFn : Nat → List (Option Title)) (fails : Nat → Bool) (tasks : List Task)
    (hf : ∀ i, fails i = false) (ent : CandidateEntry)
    (hent : ent ∈ aggregate recsFn fails tasks) :
    ent.baseScore = weightSum ent.media.id (events recsFn tasks)
    ∧ ent.reasons
        = ((events recsFn tasks).filter (fun ev => ev.2.id == ent.media.id)).map
            (fun ev => mkReason ev.1)
    ∧ ∀ tasks2, List.Perm tasks tasks2 →
        baseOf (aggregate recsFn fails tasks2) ent.media.id = ent.baseScore := by
  have hagg := aggregate_noFail recsFn fails tasks hf
  have hnodup : (idsOf (aggregate recsFn fails tasks)).Nodup := by
    rw [hagg]
    exact nodup_idsOf_foldl _ [] (by simp [idsOf])
  have hfind : entryAt (aggregate recsFn fails tasks) ent.media.id = some ent :=
    entryAt_eq_of_mem _ ent hent hnodup
  have hbase : baseOf (aggregate recsFn fails tasks) ent.media.id = ent.baseScore := by
    simp [baseOf, hfind]
  have hbase2 : baseOf (aggregate recsFn fails tasks) ent.media.id
      = weightSum ent.media.id (events recsFn tasks) := by
    rw [hagg, baseOf_foldl]
    simp [baseOf, entryAt, List.find?]
  have hreas : reasonsOf (aggregate recsFn fails tasks) ent.media.id = ent.reasons := by
    simp [reasonsOf, hfind]
  have hreas2 : reasonsOf (aggregate recsFn fails tasks) ent.media.id
      = ((events recsFn tasks).filter (fun ev => ev.2.id == ent.media.id)).map
          (fun ev => mkReason ev.1) := by
    rw [hagg, reasonsOf_foldl]
    simp [reasonsOf, entryAt, List.find?]
  refine ⟨hbase ▸ hbase2, hreas ▸ hreas2, ?_⟩
  intro tasks2 hperm
  have h3 := aggregate_noFail recsFn fails tasks2 hf
  have h4 : baseOf (aggregate recsFn fails tasks2) ent.media.id
      = weightSum ent.media.id (events recsFn tasks2) := by
    rw [h3, baseOf_foldl]
    simp [baseOf, entryAt, List.find?]
  calc baseOf (aggregate recsFn fails tasks2) ent.media.id
      = weightSum ent.media.id (events recsFn tasks2) := h4
    _ = (tasks2.map (fun t => weightSum ent.media.id (taskEvents recsFn t))).sum :=
        weightSum_events recsFn ent.media.id tasks2
    _ = (tasks.map (fun t => weightSum ent.media.id (taskEvents recsFn t))).sum :=
        ((hperm.map (fun t => weightSum ent.media.id (taskEvents recsFn t))).sum_eq).symm
    _ = weightSum ent.media.id (events recsFn tasks) :=
        (weightSum_events recsFn ent.media.id tasks).symm
    _ = ent.baseScore := hbase2.symm.trans hbase

/-! ## Concrete data shared by the witnesses -/

def titleX : Title := ⟨7, some "X", none, ["Action"], [⟨"Ninja", 60⟩]⟩
def favsW : List Fav := [⟨1, "A"⟩]
def ulW : List ListEntry := [⟨5, 9, "COMPLETED", some "S", ["Action"], [⟨"Ninja", 80⟩]⟩]
def recsW : Nat → List (Option Title) :=
  fun i => if i = 1 then [some titleX] else if i = 5 then [some titleX] else []
def failsW : Nat → Bool := fun _ => false
def tasksW : List Task := [⟨1, 2, some "A", "favori"⟩, ⟨5, 1, some "S", "top noté"⟩]
def candW : CandidateEntry :=
  ⟨titleX, 3, [⟨some "A", "favori", 2⟩, ⟨some "S", "top noté", 1⟩]⟩
def entW : ScoredEntry :=
  ⟨titleX, 3, [⟨some "A", "favori", 2⟩, ⟨some "S", "top noté", 1⟩], false,
    [⟨"Ninja", 80⟩], 8, 38⟩
def dataW : RemoteData := ⟨.ok favsW, .ok ulW, recsW, failsW⟩

theorem fanout_baseScore_sum_witness :
    (∀ i, failsW i = false)
    ∧ candW ∈ aggregate recsW failsW tasksW
    ∧ candW.baseScore = weightSum candW.media.id (events recsW tasksW)
    ∧ candW.reasons
        = ((events recsW tasksW).filter (fun ev => ev.2.id == candW.media.id)).map
            (fun ev => mkReason ev.1) :=
  ⟨fun _ => rfl, by decide,
    (fanout_baseScore_sum recsW failsW tasksW (fun _ => rfl) candW (by decide)).1,
    (fanout_baseScore_sum recsW failsW tasksW (fun _ => rfl) candW (by decide)).2.1⟩

/-! ## Claim C2 -/

theorem refineEntry_media (tm : List (String × TagStat)) (tg : List String)
    (f : FilteredEntry) : (refineEntry tm tg f).media = f.media := rfl

theorem refineEntry_baseScore (tm : List (String × TagStat)) (tg : List String)
    (f : FilteredEntry) : (refineEntry tm tg f).baseScore = f.baseScore := rfl

theorem refineEntry_isPlanning (tm : List (String × TagStat)) (tg : List String)
    (f : FilteredEntry) : (refineEntry tm tg f).isPlanning = f.isPlanning := rfl

/-- Unpack a pipeline member into its surviving score-map candidate. -/
theorem mem_pipeline_elim (favs : List Fav) (ulRaw : List ListEntry)
    (recsFn : Nat → List (Option Title)) (fails : Nat → Bool) (e : ScoredEntry)
    (he : e ∈ pipeline favs ulRaw recsFn fails) :
    ∃ c ∈ aggregate recsFn fails (mkTasks favs (sortUserList ulRaw)),
      ((seenIds (sortUserList ulRaw)).contains c.media.id) = false
      ∧ e = refineEntry (buildTagMap (sortUserList ulRaw)) (topGenresOf (sortUserList ulRaw))
            ⟨c.media, c.baseScore, c.reasons,
              (planningIds (sortUserList ulRaw)).contains c.media.id⟩ := by
  rcases List.mem_map.mp ((mem_pipeline_iff favs ulRaw recsFn fails e).mp he)
    with ⟨f, hf, rfl⟩
  rcases (mem_filterSeen _ _ f).mp hf with ⟨c, hc, hseen, rfl⟩
  exact ⟨c, hc, hseen, rfl⟩

/-- C2: no candidate rated with a non-planning status survives to the final
result list; a surviving candidate is flagged `isPlanning` exactly when its id
is rated with the planning status; and every aggregated candidate rated at
most with the planning status is retained in the output with its base score
and the correct flag. -/
theorem seen_exclusion_planning_flag (d : RemoteData) (res : List ScoredEntry)
    (ul : List ListEntry) (hl : d.listResponse = .ok ul)
    (hr : computeRecommendations d = .ok res) :
    (∀ e ∈ res,
        (∀ le ∈ ul, le.mediaId = e.media.id → le.status = "PLANNING")
        ∧ (e.isPlanning = true ↔
            ∃ le ∈ ul, le.mediaId = e.media.id ∧ le.status = "PLANNING"))
    ∧ (∀ favs, d.favResponse = .ok favs →
        ∀ c ∈ aggregate d.recsFn d.chunkFails (mkTasks favs (sortUserList ul)),
          (¬ ∃ le ∈ ul, le.mediaId = c.media.id ∧ le.status ≠ "PLANNING") →
          ∃ e ∈ res, e.media = c.media ∧ e.baseScore = c.baseScore) := by
  have hperm := perm_sortDescBy (fun e : ListEntry => e.score) ul
  rcases hfa : d.favResponse with efav | favs
  · rw [computeRecommendations, hfa] at hr
    cases hr
  have hres : res = pipeline favs ul d.recsFn d.chunkFails := by
    rw [computeRecommendations, hfa, hl] at hr
    exact (Except.ok.inj hr).symm
  constructor
  · intro e he
    rcases mem_pipeline_elim favs ul d.recsFn d.chunkFails e (hres ▸ he)
      with ⟨c, _hc, hseen, rfl⟩
    constructor
    · intro le hle hid
      by_contra hst
      have hmem : c.media.id ∈ seenIds (sortUserList ul) :=
        (mem_seenIds _ _).mpr ⟨le, hperm.mem_iff.mpr hle,
          by simpa [refineEntry_media] using hid, hst⟩
      rw [(contains_iff_mem _ _).mpr hmem] at hseen
      cases hseen
    · rw [refineEntry_isPlanning, refineEntry_media]
      show ((planningIds (sortUserList ul)).contains c.media.id) = true ↔ _
      rw [contains_iff_mem, mem_planningIds]
      constructor
      · rintro ⟨le, hle, hid, hst⟩
        exact ⟨le, hperm.mem_iff.mp hle, hid, hst⟩
      · rintro ⟨le, hle, hid, hst⟩
        exact ⟨le, hperm.mem_iff.mpr hle, hid, hst⟩
  · intro favs2 hfa2 c hc hnoseen
    have hfavs2 : favs2 = favs := (Except.ok.inj hfa2).symm
    rw [hfavs2] at hc
    have hseen : ((seenIds (sortUserList ul)).contains c.media.id) = false := by
      rcases hb : (seenIds (sortUserList ul)).contains c.media.id with _ | _
      · rfl
      · exfalso
        rcases (mem_seenIds _ _).mp ((contains_iff_mem _ _).mp hb)
          with ⟨le, hle, hid, hst⟩
        exact hnoseen ⟨le, hperm.mem_iff.mp hle, hid, hst⟩
    refine ⟨refineEntry (buildTagMap (sortUserList ul)) (topGenresOf (sortUserList ul))
        ⟨c.media, c.baseScore, c.reasons,
          (planningIds (sortUserList ul)).contains c.media.id⟩, ?_, rfl, rfl⟩
    rw [hres]
    refine (mem_pipeline_iff favs ul d.recsFn d.chunkFails _).mpr ?_
    refine List.mem_map_of_mem _ ((mem_filterSeen _ _ _).mpr ⟨c, hc, hseen, rfl⟩)

theorem seen_exclusion_planning_flag_witness :
    computeRecommendations dataW = .ok (pipeline favsW ulW recsW failsW)
    ∧ entW ∈ pipeline favsW ulW recsW failsW
    ∧ (∀ le ∈ ulW, le.mediaId = entW.media.id → le.status = "PLANNING")
    ∧ (entW.isPlanning = true ↔
        ∃ le ∈ ulW, le.mediaId = entW.media.id ∧ le.status = "PLANNING") :=
  ⟨rfl, by decide,
    ((seen_exclusion_planning_flag dataW _ ulW rfl rfl).1 entW (by decide)).1,
    ((seen_exclusion_planning_flag dataW _ ulW rfl rfl).1 entW (by decide)).2⟩

/-! ## Claim C3 -/

theorem length_filterMap_lookup (tm : List (String × TagStat)) (ts : List TagRec) :
    (ts.filterMap (fun t =>
        match lookupTag tm t.name with
        | some u => some (⟨t.name, jsRound u.totalRank u.count⟩ : CommonTag)
        | none => none)).length
      = (ts.filter (fun t => (lookupTag tm t.name).isSome)).length := by
  induction ts with
  | nil => rfl
  | cons t ts ih =>
    cases h : lookupTag tm t.name <;>
      simp [List.filterMap_cons, List.filter_cons, h, ih]

theorem length_commonTagsAll (tm : List (String × TagStat)) (media : Title) :
    (commonTagsAll tm media).length
      = (media.tags.filter (fun t => (lookupTag tm t.name).isSome)).length :=
  length_filterMap_lookup tm media.tags

/-- C3: for every retained candidate, the tag score component is
`min(sharedTags, 3) · 0.5 ≤ 1.5` and the genre component is
`min(sharedGenres, 3) · 0.3 ≤ 0.9` (in tenths: 15 and 9); `tagBonus` stores
their sum; the final score is the base score plus that combined bonus (exact
in tenths, so the one-decimal rounding is the identity); and `commonTags`
keeps at most 5 matches, sorted by descending strength, each strength being
`round(totalRank/count)` of the profile entry of that tag name. -/
theorem refine_bonus_caps (d : RemoteData) (res : List ScoredEntry)
    (ul : List ListEntry) (hl : d.listResponse = .ok ul)
    (hr : computeRecommendations d = .ok res) (e : ScoredEntry) (he : e ∈ res) :
    e.tagBonus10
        = min ((e.media.tags.filter (fun t =>
              (lookupTag (buildTagMap (sortUserList ul)) t.name).isSome)).length) 3
            * TAG_BONUS10
          + min ((e.media.genres.filter (fun g =>
              (topGenresOf (sortUserList ul)).contains g)).length) 3 * GENRE_BONUS10
    ∧ min ((e.media.tags.filter (fun t =>
          (lookupTag (buildTagMap (sortUserList ul)) t.name).isSome)).length) 3
        * TAG_BONUS10 ≤ 15
    ∧ min ((e.media.genres.filter (fun g =>
          (topGenresOf (sortUserList ul)).contains g)).length) 3 * GENRE_BONUS10 ≤ 9
    ∧ e.score10 = 10 * e.baseScore + e.tagBonus10
    ∧ e.commonTags.length ≤ 5
    ∧ e.commonTags.Pairwise (fun a b => b.strength ≤ a.strength)
    ∧ (∀ ct ∈ e.commonTags,
        ∃ st, lookupTag (buildTagMap (sortUserList ul)) ct.name = some st
          ∧ ct.strength = jsRound st.totalRank st.count) := by
  rcases hfa : d.favResponse with efav | favs
  · rw [computeRecommendations, hfa] at hr
    cases hr
  have hres : res = pipeline favs ul d.recsFn d.chunkFails := by
    rw [computeRecommendations, hfa, hl] at hr
    exact (Except.ok.inj hr).symm
  rcases mem_pipeline_elim favs ul d.recsFn d.chunkFails e (hres ▸ he)
    with ⟨c, _hc, _hseen, rfl⟩
  set tm := buildTagMap (sortUserList ul) with htm
  set tg := topGenresOf (sortUserList ul) with htg
  set f : FilteredEntry := ⟨c.media, c.baseScore, c.reasons,
    (planningIds (sortUserList ul)).contains c.media.id⟩ with hfdef
  have hlen : (sortDescBy (fun ct => ct.strength) (commonTagsAll tm f.media)).length
      = (f.media.tags.filter (fun t => (lookupTag tm t.name).isSome)).length := by
    rw [(perm_sortDescBy (fun ct : CommonTag => ct.strength)
      (commonTagsAll tm f.media)).length_eq]
    exact length_commonTagsAll tm f.media
  refine ⟨?_, ?_, ?_, ?_, ?_, ?_, ?_⟩
  · show (refineEntry tm tg f).tagBonus10 = _
    simp only [refineEntry, refineEntry_media, hlen]
  · have h3 : min ((f.media.tags.filter
        (fun t => (lookupTag tm t.name).isSome)).length) 3 ≤ 3 := Nat.min_le_right _ _
    simp only [TAG_BONUS10, refineEntry_media]
    omega
  · have h3 : min ((f.media.genres.filter (fun g => tg.contains g)).length) 3 ≤ 3 :=
      Nat.min_le_right _ _
    simp only [GENRE_BONUS10, refineEntry_media]
    omega
  · show (refineEntry tm tg f).score10
      = 10 * (refineEntry tm tg f).baseScore + (refineEntry tm tg f).tagBonus10
    simp only [refineEntry]
    omega
  · show (refineEntry tm tg f).commonTags.length ≤ 5
    simp only [refineEntry, List.length_take]
    omega
  · show (refineEntry tm tg f).commonTags.Pairwise _
    exact List.Pairwise.sublist (List.take_sublist 5 _)
      (pairwise_sortDescBy (fun ct : CommonTag => ct.strength) _)
  · intro ct hct
    have hct2 : ct ∈ commonTagsAll tm f.media :=
      (perm_sortDescBy (fun ct : CommonTag => ct.strength) _).mem_iff.mp
        ((List.take_sublist 5 _).subset hct)
    rcases List.mem_filterMap.mp hct2 with ⟨t, _ht, heq⟩
    rcases hl2 : lookupTag tm t.name with _ | u
    · rw [hl2] at heq
      cases heq
    · rw [hl2] at heq
      have hctv : ct = ⟨t.name, jsRound u.totalRank u.count⟩ := (Option.some.inj heq).symm
      subst hctv
      exact ⟨u, hl2, rfl⟩

theorem refine_bonus_caps_witness :
    entW ∈ pipeline favsW ulW recsW failsW
    ∧ entW.score10 = 10 * entW.baseScore + entW.tagBonus10
    ∧ entW.commonTags.length ≤ 5 :=
  ⟨by decide,
    (refine_bonus_caps dataW _ ulW rfl rfl entW (by decide)).2.2.2.1,
    (refine_bonus_caps dataW _ ulW rfl rfl entW (by decide)).2.2.2.2.1⟩

/-! ## Claim C4 -/

/-- C4: on a score-sorted input, the diversity re-rank permutes its input,
emits the undeferred prefix followed by the deferred entries, keeps at most
`DIVERSITY_CAP` entries of any primary genre (first listed genre, `"Unknown"`
when the genre list is empty) in the undeferred prefix, and the deferred
entries form a subsequence of the input, hence stay in descending score
order. -/
theorem diversity_rerank_props (xs : List ScoredEntry)
    (hs : xs.Pairwise (fun a b => b.score10 ≤ a.score10)) :
    List.Perm (diversify DIVERSITY_CAP xs) xs
    ∧ diversify DIVERSITY_CAP xs
        = (diversifyAux DIVERSITY_CAP xs []).1 ++ (diversifyAux DIVERSITY_CAP xs []).2
    ∧ (∀ g, ((diversifyAux DIVERSITY_CAP xs []).1.countP
          (fun e => claimPrimary e == g)) ≤ DIVERSITY_CAP)
    ∧ (diversifyAux DIVERSITY_CAP xs []).2.Sublist xs
    ∧ (diversifyAux DIVERSITY_CAP xs []).2.Pairwise
        (fun a b => b.score10 ≤ a.score10) :=
  ⟨diversify_perm _ _, rfl, fun g => diversify_div_cap _ _ g,
    diversifyAux_defer_sublist _ _ _,
    List.Pairwise.sublist (diversifyAux_defer_sublist _ _ _) hs⟩

theorem diversity_rerank_props_witness :
    ([entW] : List ScoredEntry).Pairwise (fun a b => b.score10 ≤ a.score10)
    ∧ List.Perm (diversify DIVERSITY_CAP [entW]) [entW] :=
  ⟨by simp, (diversity_rerank_props [entW] (by simp)).1⟩

/-! ## Claim C5 -/

/-- Modelled from the spec: the claimed seed selection — the first
`MAX_FAV_SOURCES` favourites at the favourite weight plus the
highest-scoring rated, non-favourite, non-planning, positively scored
entries capped at `MAX_TOP_SOURCES` — with no intermediate pre-cap before
favourites are removed. -/
def specSeeds (favs : List Fav) (ul : List ListEntry) : List Task :=
  (favs.take MAX_FAV_SOURCES).map favTask
    ++ ((ul.filter (fun e => !(e.status == "PLANNING") && decide (0 < e.score)
          && !(favIds favs).contains e.mediaId)).take MAX_TOP_SOURCES).map topTask

def favsC5 : List Fav := (List.range 25).map (fun i => ⟨i + 1, "F"⟩)
def ulC5 : List ListEntry :=
  (List.range 25).map (fun i => ⟨i + 1, 10, "COMPLETED", some "F", [], []⟩)
    ++ [⟨26, 9, "COMPLETED", some "G", [], []⟩]

/-- C5 counterexample: with 25 rated favourites filling the pre-cap pool of
`MAX_TOP_SOURCES + MAX_FAV_SOURCES` entries (line 386), the code selects no
rated seed at all, although entry 26 is the highest-scoring rated
non-favourite entry and the claimed selection would take it. -/
theorem source_selection_cex :
    ((specSeeds favsC5 (sortUserList ulC5)).map (fun t => t.mediaId)).contains 26
        = true
    ∧ ((mkTasks favsC5 (sortUserList ulC5)).map (fun t => t.mediaId)).contains 26
        = false
    ∧ mkTasks favsC5 (sortUserList ulC5) ≠ specSeeds favsC5 (sortUserList ulC5) := by
  refine ⟨by decide, by decide, by decide⟩

/-- C5 amended: the seed list is the first 15 favourites (remote order) at
weight 2, followed by rated seeds at weight 1 drawn from the pre-cap pool of
the 25 highest-scoring non-planning positively scored entries — favourites
are removed from that pool, and then at most 10 remain; rated seeds are
non-favourite, non-planning, positively scored, in descending score order,
and the score sort is stable (original fetch order breaks ties). -/
theorem source_selection_amended (favs : List Fav) (ulRaw : List ListEntry) :
    mkTasks favs (sortUserList ulRaw)
        = (favs.take MAX_FAV_SOURCES).map favTask
          ++ (topOnlyOf favs (sortUserList ulRaw)).map topTask
    ∧ (∀ f, favTask f = ⟨f.id, WEIGHT_FAVOURITE, some f.title, "favori"⟩)
    ∧ (∀ e, topTask e = ⟨e.mediaId, WEIGHT_TOP_RATED, e.title, "top noté"⟩)
    ∧ (topOnlyOf favs (sortUserList ulRaw)).length ≤ MAX_TOP_SOURCES
    ∧ (topOnlyOf favs (sortUserList ulRaw)).Sublist (sortUserList ulRaw)
    ∧ (topOnlyOf favs (sortUserList ulRaw)).Pairwise (fun a b => b.score ≤ a.score)
    ∧ (∀ e ∈ topOnlyOf favs (sortUserList ulRaw),
        e.status ≠ "PLANNING" ∧ 0 < e.score
        ∧ (favIds favs).contains e.mediaId = false
        ∧ e ∈ topRatedPool (sortUserList ulRaw))
    ∧ (sortUserList ulRaw).Pairwise (fun a b => b.score ≤ a.score)
    ∧ (∀ s, (sortUserList ulRaw).filter (fun e => e.score == s)
        = ulRaw.filter (fun e => e.score == s)) := by
  have hsub : (topOnlyOf favs (sortUserList ulRaw)).Sublist (sortUserList ulRaw) := by
    refine ((List.take_sublist _ _).trans (List.filter_sublist _)).trans ?_
    exact (List.take_sublist _ _).trans (List.filter_sublist _)
  refine ⟨rfl, fun _ => rfl, fun _ => rfl, ?_, hsub, ?_, ?_, ?_, ?_⟩
  · simp only [topOnlyOf, List.length_take]
    omega
  · exact List.Pairwise.sublist hsub (pairwise_sortDescBy (fun e : ListEntry => e.score) _)
  · intro e he
    have he2 : e ∈ (topRatedPool (sortUserList ulRaw)).filter
        (fun e => !(favIds favs).contains e.mediaId) :=
      (List.take_sublist _ _).subset he
    rcases List.mem_filter.mp he2 with ⟨hpool, hfav⟩
    have hcf : ((favIds favs).contains e.mediaId) = false := by
      simpa using hfav
    have he3 : e ∈ (sortUserList ulRaw).filter
        (fun e => !(e.status == "PLANNING") && decide (0 < e.score)) :=
      (List.take_sublist _ _).subset hpool
    rcases List.mem_filter.mp he3 with ⟨_, hcond⟩
    have hcond2 : e.status ≠ "PLANNING" ∧ 0 < e.score := by simpa using hcond
    exact ⟨hcond2.1, hcond2.2, hcf, hpool⟩
  · exact pairwise_sortDescBy (fun e : ListEntry => e.score) ulRaw
  · intro s
    exact filter_key_sortDescBy (fun e : ListEntry => e.score) ulRaw s

theorem source_selection_amended_witness :
    (topOnlyOf favsC5 (sortUserList ulC5)).length ≤ MAX_TOP_SOURCES
    ∧ (∀ e ∈ topOnlyOf favsW (sortUserList ulW), 0 < e.score) :=
  ⟨(source_selection_amended favsC5 ulC5).2.2.2.1,
    fun e he =>
      ((source_selection_amended favsW ulW).2.2.2.2.2.2.1 e he).2.1⟩

/-! ## Claim C6 -/

/-- C6: the rate-limit retry uses exponential backoff (`2^attempt · 1500` ms,
doubling per attempt), a positive `Retry-After` hint overrides the computed
delay, and once `MAX_RETRIES = 4` retries are exhausted the call fails with
the rate-limited error instead of retrying again (so an all-429 server sees
exactly 4 sleeps: 1500, 3000, 6000, 12000 ms). -/
theorem rate_limit_backoff :
    (∀ a, backoffDelay (a + 1) 0 = 2 * backoffDelay a 0)
    ∧ (∀ a r, 0 < r → backoffDelay a r = r * 1000)
    ∧ (∀ a, backoffDelay a 0 = 2 ^ a * 1500)
    ∧ (∀ resp : Nat → HttpResp,
        (∀ a, a ≤ MAX_RETRIES → (resp a).status = 429) →
          (gqlRequestModel resp 0).2 = .error "AniList API: Too Many Requests."
          ∧ (gqlRequestModel resp 0).1.length = MAX_RETRIES)
    ∧ (∀ resp : Nat → HttpResp,
        (∀ a, a ≤ MAX_RETRIES → resp a = ⟨429, 0⟩) →
          gqlRequestModel resp 0
            = ([1500, 3000, 6000, 12000], .error "AniList API: Too Many Requests.")) := by
  refine ⟨?_, ?_, ?_, ?_, ?_⟩
  · intro a
    simp [backoffDelay, Nat.pow_succ]
    ring
  · intro a r hr
    simp [backoffDelay, hr]
  · intro a
    simp [backoffDelay]
  · intro resp h
    have h0 := h 0 (by decide)
    have h1 := h 1 (by decide)
    have h2 := h 2 (by decide)
    have h3 := h 3 (by decide)
    have h4 := h 4 (by decide)
    constructor <;>
      simp [gqlRequestModel, gqlRequestAux, MAX_RETRIES, h0, h1, h2, h3, h4]
  · intro resp h
    have h0 := h 0 (by decide)
    have h1 := h 1 (by decide)
    have h2 := h 2 (by decide)
    have h3 := h 3 (by decide)
    have h4 := h 4 (by decide)
    simp [gqlRequestModel, gqlRequestAux, MAX_RETRIES, h0, h1, h2, h3, h4,
      backoffDelay]

theorem rate_limit_backoff_witness :
    (∀ a, a ≤ MAX_RETRIES → ((fun _ => (⟨429, 0⟩ : HttpResp)) a) = ⟨429, 0⟩)
    ∧ gqlRequestModel (fun _ => ⟨429, 0⟩) 0
        = ([1500, 3000, 6000, 12000], .error "AniList API: Too Many Requests.") :=
  ⟨fun _ _ => rfl,
    rate_limit_backoff.2.2.2.2 (fun _ => ⟨429, 0⟩) (fun _ _ => rfl)⟩

/-! ## Claim C7 -/

/-- C7: a failing favourites fetch or rated-list fetch aborts the whole run
with an error; with both structural fetches available the run always
completes (whatever chunk failures occur); and a failed compound chunk
contributes nothing — the fan-out result is the fold over the successful
chunks alone. -/
theorem failure_isolation :
    (∀ (d : RemoteData) e, d.favResponse = .error e →
        ∃ e2, computeRecommendations d = .error e2)
    ∧ (∀ (d : RemoteData) e, d.listResponse = .error e →
        ∃ e2, computeRecommendations d = .error e2)
    ∧ (∀ (d : RemoteData) favs ul, d.favResponse = .ok favs →
        d.listResponse = .ok ul →
        computeRecommendations d = .ok (pipeline favs ul d.recsFn d.chunkFails))
    ∧ (∀ (recsFn : Nat → List (Option Title)) (fails : Nat → Bool)
        (tasks : List Task),
        aggregate recsFn fails tasks
          = (((chunksOf 12 tasks).enum.filter (fun p => !(fails p.1))).map
              Prod.snd).foldl (processChunk recsFn) []) := by
  refine ⟨?_, ?_, ?_, ?_⟩
  · intro d e h
    exact ⟨e, by simp [computeRecommendations, h]⟩
  · intro d e h
    rcases hf : d.favResponse with e2 | favs
    · exact ⟨e2, by simp [computeRecommendations, hf]⟩
    · exact ⟨e, by simp [computeRecommendations, hf, h]⟩
  · intro d favs ul hfa hl
    simp [computeRecommendations, hfa, hl]
  · intro recsFn fails tasks
    exact aggregate_eq_successful_chunks recsFn fails tasks

def dataFailW : RemoteData := ⟨.error "NotFound", .ok [], recsW, failsW⟩

theorem failure_isolation_witness :
    (∃ e2, computeRecommendations dataFailW = .error e2)
    ∧ computeRecommendations dataW = .ok (pipeline favsW ulW recsW failsW) :=
  ⟨failure_isolation.1 dataFailW "NotFound" rfl,
    failure_isolation.2.2.1 dataW favsW ulW rfl rfl⟩

/-! ## Claim C8 -/

/-- Modelled from the spec: the claimed display-name chain for every title
record — the localized form when present, else the romanized form, else
`"#"` followed by the id. -/
def specDisplay (english romaji : Option String) (id : Nat) : String :=
  match english with
  | some s => s
  | none =>
    match romaji with
    | some s => s
    | none => "#" ++ toString id

/-- C8 counterexample: a rated-list entry whose both title forms are null
gets no display name at all (line 350 has no id fallback), while the claimed
chain yields `"#7"`; favourites records do implement the full chain. -/
theorem display_name_fallback_cex :
    listDisplay none none = none
    ∧ specDisplay none none 7 = "#7"
    ∧ favDisplay none none 7 = "#7" :=
  ⟨rfl, rfl, rfl⟩

/-- C8 amended: favourites records implement the full
english → romaji → `"#"+id` chain (with the empty string falsy, as in
JavaScript), but rated-list records implement only english → romaji and have
no display name when both forms are absent. -/
theorem display_name_fallback_amended :
    (∀ s r id, s ≠ "" → favDisplay (some s) r id = s)
    ∧ (∀ e s id, (e = none ∨ e = some "") → s ≠ "" →
        favDisplay e (some s) id = s)
    ∧ (∀ e r id, (e = none ∨ e = some "") → (r = none ∨ r = some "") →
        favDisplay e r id = "#" ++ toString id)
    ∧ (∀ s r, s ≠ "" → listDisplay (some s) r = some s)
    ∧ (∀ r, listDisplay none r = r)
    ∧ listDisplay none none = none := by
  refine ⟨?_, ?_, ?_, ?_, ?_, rfl⟩
  · intro s r id hs
    simp [favDisplay, jsOrStr, hs]
  · intro e s id he hs
    rcases he with rfl | rfl <;> simp [favDisplay, jsOrStr, hs]
  · intro e r id he hr
    rcases he with rfl | rfl <;> rcases hr with rfl | rfl <;>
      simp [favDisplay, jsOrStr]
  · intro s r hs
    simp [listDisplay, jsOrOpt, hs]
  · intro r
    simp [listDisplay, jsOrOpt]

theorem display_name_fallback_amended_witness :
    ("X" : String) ≠ "" ∧ favDisplay (some "X") none 7 = "X" :=
  ⟨by decide, display_name_fallback_amended.1 "X" none 7 (by decide)⟩

/-! ## Claim C9 -/

/-- C9: the pipeline is a deterministic, stateless function of the remote
responses: two runs over extensionally equal remote data return identical
results (same candidates, scores and order). -/
theorem pipeline_deterministic (d1 d2 : RemoteData)
    (h1 : d1.favResponse = d2.favResponse)
    (h2 : d1.listResponse = d2.listResponse)
    (h3 : ∀ i, d1.recsFn i = d2.recsFn i)
    (h4 : ∀ c, d1.chunkFails c = d2.chunkFails c) :
    computeRecommendations d1 = computeRecommendations d2 := by
  obtain ⟨f1, l1, r1, c1⟩ := d1
  obtain ⟨f2, l2, r2, c2⟩ := d2
  simp only at h1 h2 h3 h4
  have hr : r1 = r2 := funext h3
  have hc : c1 = c2 := funext h4
  cases h1
  cases h2
  cases hr
  cases hc
  rfl

theorem pipeline_deterministic_witness :
    computeRecommendations dataW = computeRecommendations dataW :=
  pipeline_deterministic dataW dataW rfl rfl (fun _ => rfl) (fun _ => rfl)

/-! ## Claim C10 -/

def titleY : Title := ⟨2, some "X2", none, ["Drama"], []⟩
def favsC10 : List Fav := [⟨1, "A"⟩, ⟨2, "X2"⟩]
def ulC10 : List ListEntry := []
def recsC10 : Nat → List (Option Title) := fun i => if i = 1 then [some titleY] else []
def dataC10 : RemoteData := ⟨.ok favsC10, .ok ulC10, recsC10, fun _ => false⟩

/-- C10: the seen-exclusion consults only the rated list, never the
favourites set — here title 2 is one of the user's favourites, absent from
the (empty) rated list, recommended by seed 1, and it appears in the final
output. -/
theorem favourite_not_excluded :
    (favIds favsC10).contains 2 = true
    ∧ (ulC10.map (fun e => e.mediaId)).contains 2 = false
    ∧ ∃ res, computeRecommendations dataC10 = .ok res
        ∧ (res.map (fun e => e.media.id)).contains 2 = true :=
  ⟨by decide, by decide,
    ⟨pipeline favsC10 ulC10 recsC10 (fun _ => false), rfl, by decide⟩⟩

end AnilistReco
